import Mathlib

/-!
Shallow embedding of the `ca4` repository (a 1-D four-symbol cellular-automaton
art generator) and proofs about its specification claims.

Sources embedded:
  - `src/main.rs`: `Rule` (64-bit packed lookup table) and `State`
    (circular row of `u8` symbols).
  - `src/lib.rs`: `Color`, `Themes` (a byte buffer of 20-byte palette
    records), and `Seed` (64-bit value with hex text form).

Machine integers are modelled as `Nat` (with explicit `% 2^w` where the Rust
code can wrap) and `Int` for Rust's `i32` indices.  Operations that can panic
in Rust (`rem_euclid` with a zero divisor, out-of-bounds slice indexing)
return `Option`, with `none` standing for the panic.  Floating-point values
that feed integer casts are modelled as exact rationals; the one genuinely
transcendental input (`powf`) is kept as an explicit rational parameter.
-/

/-- Embeds `struct Rule { rule: u64 }` from `src/main.rs`.  The `u64` is a
`Nat` together with the range invariant carried by theorems' hypotheses. -/
structure Rule where
  rule : Nat
deriving Repr, DecidableEq

/-- Embeds `Rule::new(rule)`. -/
def Rule.new (rule : Nat) : Rule := ⟨rule⟩

/-- Embeds `Rule::apply(&self, p: u8) -> u8 { ((self.rule >> p) & 3) as u8 }`.
For `p < 64` this matches Rust exactly; the callers proved about below only
produce `p ≤ 63`. -/
def Rule.apply (r : Rule) (p : Nat) : Nat :=
  (r.rule >>> p) &&& 3

/-- Embeds `struct State { v: Vec<u8> }` from `src/main.rs`: the row of
symbols.  Elements are `u8` values (`< 256`); the data-model invariant keeps
them `< 4`. -/
structure State where
  v : List Nat
deriving Repr, DecidableEq

/-- Embeds `State::with_size(n) { v: vec![0; n] }`. -/
def State.with_size (n : Nat) : State := ⟨List.replicate n 0⟩

/-- Embeds `State::len`. -/
def State.len (s : State) : Nat := s.v.length

/-- Embeds Rust `i32::rem_euclid`: panics (`none`) when the divisor is zero,
otherwise the non-negative Euclidean remainder, which Lean's `Int.emod`
computes for a positive divisor. -/
def i32_rem_euclid (i n : Int) : Option Int :=
  if n = 0 then none else some (i % n)

/-- Embeds `State::get(&self, i: i32) -> u8 { self.v[i.rem_euclid(self.v.len() as i32) as usize] }`
with both panic points explicit: `rem_euclid` with divisor `0`, and the `Vec`
index. -/
def State.get? (s : State) (i : Int) : Option Nat :=
  match i32_rem_euclid i (s.v.length : Int) with
  | none => none
  | some j => s.v.get? j.toNat

/-- The total value of `State::get` in the non-panicking case (`len > 0`):
the element at index `i.rem_euclid(len)`.  `State.get_q_eq_get` below proves
it agrees with `State.get?` whenever the row is non-empty. -/
def State.get (s : State) (i : Int) : Nat :=
  s.v.getD ((i % (s.v.length : Int)).toNat) 0

/-- Embeds `State::set(&mut self, i: i32, value: u8)`; the returned state is
the updated vector, `none` standing for the `rem_euclid`-by-zero panic. -/
def State.set? (s : State) (i : Int) (value : Nat) : Option State :=
  match i32_rem_euclid i (s.v.length : Int) with
  | none => none
  | some j => some ⟨s.v.set j.toNat value⟩

/-- The total value of `State::set` in the non-panicking case, used to build
concrete states for the scenario claims. -/
def State.set (s : State) (i : Int) (value : Nat) : State :=
  ⟨s.v.set ((i % (s.v.length : Int)).toNat) value⟩

/-- Embeds the neighborhood-code expression `a << 4 | b << 2 | c` evaluated
on `u8` operands: each shift wraps modulo 256.  For symbols `< 4` no wrap
occurs and the code is `16*a + 4*b + c ≤ 63`. -/
def nbhdCode (a b c : Nat) : Nat :=
  ((a <<< 4) % 256) ||| ((b <<< 2) % 256) ||| c

/-- Embeds `State::apply(&self, rule: Rule) -> State`: for each position `i`
of `0..len`, push `rule.apply(get(i-1) << 4 | get(i) << 2 | get(i+1))`.
Positions only exist when `len > 0`, where the total `State.get` agrees with
the panicking `State.get?`. -/
def State.apply (s : State) (rule : Rule) : State :=
  ⟨(List.range s.v.length).map fun (i : Nat) =>
    rule.apply (nbhdCode (s.get ((i : Int) - 1)) (s.get (i : Int)) (s.get ((i : Int) + 1)))⟩

/-- Rust's `as u8` cast applied to an `f64`, modelled on exact rationals:
truncation toward zero with saturation at the type's bounds (`0` and `255`),
as Rust defines float-to-integer `as` casts. -/
def f64_as_u8 (x : ℚ) : Nat :=
  if x ≤ 0 then 0 else min 255 ⌊x⌋.toNat

/-- Embeds `struct Color { a, r, g, b: u8 }` from `src/lib.rs`. -/
structure Color where
  a : Nat
  r : Nat
  g : Nat
  b : Nat
deriving Repr, DecidableEq

/-- Embeds `Color::from_rgb`: alpha fixed to `0xff`. -/
def Color.from_rgb (r g b : Nat) : Color := ⟨0xff, r, g, b⟩

/-- Embeds `Color::from_rgba`: the stored alpha is `(a * 255.0) as u8`.  The
`f64` fraction is modelled as an exact rational. -/
def Color.from_rgba (r g b : Nat) (a : ℚ) : Color :=
  ⟨f64_as_u8 (a * 255), r, g, b⟩

/-- Embeds `Color::from_rgb_u32`: decode a packed `0xRRGGBB` integer. -/
def Color.from_rgb_u32 (c : Nat) : Color :=
  Color.from_rgb ((c >>> 16) &&& 0xff) ((c >>> 8) &&& 0xff) (c &&& 0xff)

/-- Embeds `Color::with_alpha`. -/
def Color.with_alpha (c : Color) (a : ℚ) : Color :=
  Color.from_rgba c.r c.g c.b a

/-- Embeds `Color::alpha(&self) -> f64 { self.a as f64 * 255.0 }` (the stored
byte multiplied by 255, exact in `f64` and hence as a rational). -/
def Color.alpha (c : Color) : ℚ := (c.a : ℚ) * 255

/-- Embeds `Color::as_f64`: each channel as a 0-1 fraction.  Exact rationals;
`c.r / 255` etc. are representable only approximately in `f64`, but every
theorem using this keeps the comparison on the exact values. -/
def Color.as_f64 (c : Color) : ℚ × ℚ × ℚ :=
  ((c.r : ℚ) / 255, (c.g : ℚ) / 255, (c.b : ℚ) / 255)

/-- Embeds `Color::brighter(k)`.  The Rust code first computes
`BRIGHTER.powf(k)`, a transcendental `f64`; the embedding takes that factor
directly as the rational parameter `k` and models the channel pipeline
`(channel/255) * 255.0 * k` followed by the `as u8` cast exactly. -/
def Color.brighter (c : Color) (k : ℚ) : Color :=
  let (r, g, b) := c.as_f64
  ⟨c.a, f64_as_u8 (r * 255 * k), f64_as_u8 (g * 255 * k), f64_as_u8 (b * 255 * k)⟩

/-- Embeds `Color::darker(k)` the same way, with `k` standing for
`DARKER.powf(k)`. -/
def Color.darker (c : Color) (k : ℚ) : Color :=
  let (r, g, b) := c.as_f64
  ⟨c.a, f64_as_u8 (r * 255 * k), f64_as_u8 (g * 255 * k), f64_as_u8 (b * 255 * k)⟩

/-- The hexadecimal digit characters used by Rust's `{:x}` formatting
(lowercase). -/
def hexChar (n : Nat) : Char :=
  if n < 10 then Char.ofNat (48 + n) else Char.ofNat (87 + n)

/-- Hex digits of `n`, most significant first, pushed onto `acc`; the fuel
bounds the recursion and any `fuel > n` is enough (proved below). -/
def toHexFuel : Nat → Nat → List Char → List Char
  | 0, _, acc => acc
  | fuel + 1, n, acc =>
    if n = 0 then acc else toHexFuel fuel (n / 16) (hexChar (n % 16) :: acc)

/-- Rust `{:x}` of an unsigned integer: lowercase hex, no padding, and `"0"`
for zero. -/
def toHex (n : Nat) : List Char :=
  if n = 0 then ['0'] else toHexFuel (n + 1) n []

/-- Rust `{:02x}`: lowercase hex left-padded with zeros to a minimum width
of two. -/
def hex2 (n : Nat) : List Char :=
  List.replicate (2 - (toHex n).length) '0' ++ toHex n

/-- Embeds `impl Display for Color`: `write!(f, "#{:02x}{:02x}{:02x}", r, g, b)`. -/
def Color.display (c : Color) : String :=
  ⟨'#' :: (hex2 c.r ++ hex2 c.g ++ hex2 c.b)⟩

/-- Embeds `const THEME_SIZE: usize = 20`. -/
def THEME_SIZE : Nat := 20

/-- Embeds `struct Themes { mem: Mmap }`: the memory-mapped theme file as its
byte sequence (each byte `< 256`). -/
structure Themes where
  mem : List Nat
deriving Repr, DecidableEq

/-- Embeds `BigEndian::read_u32(&self.mem[b..b + 4])` together with the
slice's bounds check: `none` models the out-of-bounds slice panic, otherwise
the four bytes assemble big-endian. -/
def read_u32_be? (mem : List Nat) (b : Nat) : Option Nat :=
  if b + 4 ≤ mem.length then
    some (mem.getD b 0 <<< 24 ||| mem.getD (b + 1) 0 <<< 16 |||
      mem.getD (b + 2) 0 <<< 8 ||| mem.getD (b + 3) 0)
  else none

/-- Embeds `Themes::get(idx)`: the `for i in 0..5` loop reading a big-endian
`u32` at `idx*20 + 4*i` and decoding it via `Color::from_rgb_u32`, unrolled;
`none` models a slice-bounds panic at any of the five reads. -/
def Themes.get? (t : Themes) (idx : Nat) : Option (List Color) :=
  let off := idx * THEME_SIZE
  match read_u32_be? t.mem off, read_u32_be? t.mem (off + 4),
      read_u32_be? t.mem (off + 8), read_u32_be? t.mem (off + 12),
      read_u32_be? t.mem (off + 16) with
  | some w0, some w1, some w2, some w3, some w4 =>
    some [Color.from_rgb_u32 w0, Color.from_rgb_u32 w1, Color.from_rgb_u32 w2,
      Color.from_rgb_u32 w3, Color.from_rgb_u32 w4]
  | _, _, _, _, _ => none

/-- Embeds `Themes::len`: `self.mem.len() / THEME_SIZE` (integer division). -/
def Themes.len (t : Themes) : Nat := t.mem.length / THEME_SIZE

/-- Embeds `struct Seed { v: u64 }` from `src/lib.rs`. -/
structure Seed where
  v : Nat
deriving Repr, DecidableEq

/-- Embeds `Seed::new`. -/
def Seed.new (v : Nat) : Seed := ⟨v⟩

/-- Embeds `Seed::value`. -/
def Seed.value (s : Seed) : Nat := s.v

/-- One past `u64::MAX`. -/
def U64_LIMIT : Nat := 2 ^ 64

/-- Embeds `char::to_digit(16)`: decimal digits, lowercase and uppercase hex
letters. -/
def hexDigit? (c : Char) : Option Nat :=
  if 48 ≤ c.toNat ∧ c.toNat ≤ 57 then some (c.toNat - 48)
  else if 97 ≤ c.toNat ∧ c.toNat ≤ 102 then some (c.toNat - 87)
  else if 65 ≤ c.toNat ∧ c.toNat ≤ 70 then some (c.toNat - 55)
  else none

/-- The digit-accumulation loop of `u64::from_str_radix(_, 16)`: multiply the
accumulator by 16 and add each digit, failing on a non-digit character or on
overflow past `u64::MAX`. -/
def parseHexU64 : List Char → Nat → Option Nat
  | [], acc => some acc
  | c :: rest, acc =>
    match hexDigit? c with
    | none => none
    | some d =>
      if acc * 16 + d < U64_LIMIT then parseHexU64 rest (acc * 16 + d) else none

/-- Embeds `u64::from_str_radix(s, 16)`: the empty string fails, a lone sign
fails, a leading `+` is stripped (a leading `-` is rejected for an unsigned
target because it is not a hex digit), then the digit loop runs on the rest. -/
def from_str_radix16 (s : String) : Option Nat :=
  match s.data with
  | [] => none
  | c :: rest =>
    if c = '+' then (if rest = [] then none else parseHexU64 rest 0)
    else parseHexU64 (c :: rest) 0

/-- Embeds `impl FromStr for Seed`: parse hex, wrap in `Seed::new`. -/
def Seed.from_str (s : String) : Option Seed :=
  (from_str_radix16 s).map Seed.new

/-- Embeds `impl Display for Seed`: `write!(f, "{:08x}", self.v)` — lowercase
hex, zero-padded to a minimum width of 8, never truncating the magnitude. -/
def Seed.display (s : Seed) : String :=
  ⟨List.replicate (8 - (toHex s.v).length) '0' ++ toHex s.v⟩

example : Seed.display (Seed.new 255) = "000000ff" := by decide
example : from_str_radix16 "ff" = some 255 := by decide
example : Seed.display (Seed.new (2 ^ 64 - 1)) = "ffffffffffffffff" := by decide
example : (Color.from_rgb 2 2 2).display = "#020202" := by decide
example : f64_as_u8 ((2550 : ℚ) / 7) = 255 := by norm_num [f64_as_u8]
example : Themes.len ⟨List.replicate 20 0⟩ = 1 := by decide

/-- C1: `Rule::apply` on the 6-bit code `(l << 4) | (c << 2) | r` built from
symbols `l, c, r < 4` returns `(R >> code) & 3`; the code equals
`16*l + 4*c + r < 64` and the result is the two-bit entry `R / 2^code % 4`,
so the rule value acts as a packed table of 64 two-bit output symbols. -/
theorem c1_rule_apply_table (R l c r : Nat) (hR : R < 2 ^ 64)
    (hl : l < 4) (hc : c < 4) (hr : r < 4) :
    (Rule.new R).apply (l <<< 4 ||| c <<< 2 ||| r)
        = (R >>> (l <<< 4 ||| c <<< 2 ||| r)) &&& 3 ∧
    (Rule.new R).apply (l <<< 4 ||| c <<< 2 ||| r) = R / 2 ^ (16 * l + 4 * c + r) % 4 ∧
    l <<< 4 ||| c <<< 2 ||| r = 16 * l + 4 * c + r ∧
    16 * l + 4 * c + r < 64 := by
  have hcode : l <<< 4 ||| c <<< 2 ||| r = 16 * l + 4 * c + r := by
    interval_cases l <;> interval_cases c <;> interval_cases r <;> decide
  refine ⟨rfl, ?_, hcode, by omega⟩
  rw [Rule.apply, Rule.new, hcode, Nat.shiftRight_eq_div_pow]
  have h3 : (3 : Nat) = 2 ^ 2 - 1 := rfl
  rw [h3, Nat.and_pow_two_sub_one_eq_mod]

/-- Witness for C1 at `R = 27`, `l = 0`, `c = 0`, `r = 2`. -/
theorem c1_rule_apply_table_witness :
    (27 : Nat) < 2 ^ 64 ∧ (0 : Nat) < 4 ∧ (2 : Nat) < 4 ∧
    (Rule.new 27).apply (0 <<< 4 ||| 0 <<< 2 ||| 2) = 27 / 2 ^ (16 * 0 + 4 * 0 + 2) % 4 :=
  ⟨by decide, by decide, by decide,
    (c1_rule_apply_table 27 0 0 2 (by decide) (by decide) (by decide) (by decide)).2.1⟩

/-- C2: `State::apply` preserves the length, and the symbol at every position
`i` is `rule.apply` of the code built from the circular reads at `i-1`, `i`,
`i+1`.  Purity and determinism are inherent to the embedding: the Rust
`&self` receiver is a value argument here, so `s` is unchanged and the two
calls of the last conjunct are literally the same value. -/
theorem c2_state_apply_pointwise (s : State) (ru : Rule) (hn : 0 < s.v.length)
    (hsym : ∀ x ∈ s.v, x < 4) :
    (s.apply ru).v.length = s.v.length ∧
    (∀ i, i < s.v.length →
      (s.apply ru).v.get? i =
        some (ru.apply (nbhdCode (s.get ((i : Int) - 1)) (s.get (i : Int))
          (s.get ((i : Int) + 1))))) ∧
    s.apply ru = s.apply ru := by
  refine ⟨by simp only [State.apply, List.length_map, List.length_range], ?_, rfl⟩
  intro i hi
  rw [List.get?_eq_getElem?]
  simp only [State.apply, List.getElem?_map, List.getElem?_range hi, Option.map_some']

/-- Witness for C2: the scenario-D state of length 7 over symbols `< 4`. -/
theorem c2_state_apply_pointwise_witness :
    0 < ((State.with_size 7).set 3 3).v.length ∧
    (∀ x ∈ ((State.with_size 7).set 3 3).v, x < 4) ∧
    ((((State.with_size 7).set 3 3).apply (Rule.new 27)).v.length
      = ((State.with_size 7).set 3 3).v.length) :=
  ⟨by decide, by decide,
    (c2_state_apply_pointwise ((State.with_size 7).set 3 3) (Rule.new 27)
      (by decide) (by decide)).1⟩

/-- C3: circular indexing is periodic with period `len` in both directions,
and in the non-panicking case `len > 0` the Euclidean remainder lands in
`[0, len)`, so the read succeeds. -/
theorem c3_state_get_circular (s : State) (i : Int) (h : 0 < s.v.length) :
    s.get? i = s.get? (i + (s.v.length : Int)) ∧
    s.get? i = s.get? (i - (s.v.length : Int)) ∧
    (s.get? i).isSome := by
  have hne : (s.v.length : Int) ≠ 0 := by
    simpa using Int.natCast_ne_zero.mpr (Nat.pos_iff_ne_zero.mp h)
  have hadd : (i + (s.v.length : Int)) % (s.v.length : Int) = i % (s.v.length : Int) := by
    simp [Int.add_mul_emod_self_left]
  have hsub : (i - (s.v.length : Int)) % (s.v.length : Int) = i % (s.v.length : Int) := by
    simp [Int.sub_emod, Int.emod_emod_of_dvd]
  have hidx : (i % (s.v.length : Int)).toNat < s.v.length := by
    have h1 := Int.emod_nonneg i hne
    have h2 := Int.emod_lt_of_pos i (show (0 : Int) < (s.v.length : Int) by omega)
    omega
  refine ⟨?_, ?_, ?_⟩
  · simp [State.get?, i32_rem_euclid, hne, hadd]
  · simp [State.get?, i32_rem_euclid, hne, hsub]
  · simp only [State.get?, i32_rem_euclid, if_neg hne]
    rw [List.get?_eq_getElem?]
    simp [List.getElem?_eq_getElem hidx]

/-- Witness for C3 at a length-3 state and the negative index `-4`. -/
theorem c3_state_get_circular_witness :
    0 < (State.with_size 3).v.length ∧
    (State.with_size 3).get? (-4) = (State.with_size 3).get? (-4 + (3 : Int)) :=
  ⟨by decide, by
    have := (c3_state_get_circular (State.with_size 3) (-4) (by decide)).1
    simpa using this⟩

/-- C6 counterexample: `Rule::new(u64::MAX)` does not map every one of the 64
neighborhood codes to 3 — code 63 (all-3 neighborhood) yields
`(u64::MAX >> 63) & 3 = 1`. -/
theorem c6_counterexample :
    Rule.apply (Rule.new (2 ^ 64 - 1)) 63 = 1 ∧
    ¬ (∀ p : Fin 64, Rule.apply (Rule.new (2 ^ 64 - 1)) p.val = 3) := by decide

/-- C6 amended: with `Rule::new(u64::MAX)` every neighborhood code up to 62
maps to 3 (code 63 maps to 1), and the size-7 state with symbol 3 at cell 3
and 0 elsewhere still becomes all 3's after exactly one `apply`, because the
all-3 neighborhood does not occur in that row. -/
theorem c6_scenario_d_amended :
    (∀ p : Fin 63, Rule.apply (Rule.new (2 ^ 64 - 1)) p.val = 3) ∧
    Rule.apply (Rule.new (2 ^ 64 - 1)) 63 = 1 ∧
    (((State.with_size 7).set 3 3).apply (Rule.new (2 ^ 64 - 1))).v
      = [3, 3, 3, 3, 3, 3, 3] := by decide

/-- The scenario-A theme buffer: one 20-byte record whose five big-endian
4-byte fields carry the RGB triples (0,0,0), (1,1,1), (2,2,2), (3,3,3),
(4,4,4), each with a zero top byte. -/
def themeScenarioA : Themes :=
  ⟨[0, 0, 0, 0, 0, 1, 1, 1, 0, 2, 2, 2, 0, 3, 3, 3, 0, 4, 4, 4]⟩

/-- C7: on the scenario-A store, `len() = 1` and `get(0)` returns exactly the
five colors `(i,i,i)` for `i = 0..4` (alpha `0xff` via the `from_rgb_u32`
path, top byte ignored), whose lowercase hex displays are
`#000000`, `#010101`, `#020202`, `#030303`, `#040404`. -/
theorem c7_scenario_a :
    Themes.len themeScenarioA = 1 ∧
    Themes.get? themeScenarioA 0 =
      some [Color.from_rgb 0 0 0, Color.from_rgb 1 1 1, Color.from_rgb 2 2 2,
        Color.from_rgb 3 3 3, Color.from_rgb 4 4 4] ∧
    (Themes.get? themeScenarioA 0).map (List.map Color.display) =
      some ["#000000", "#010101", "#020202", "#030303", "#040404"] := by decide

/-- C9: a zero-length state panics on every `get` or `set` (the Euclidean
remainder has divisor zero), while any positive-length state never panics:
the remainder lands in `[0, len)` so both the read and the write succeed. -/
theorem c9_state_index_panics (s : State) (i : Int) (value : Nat) :
    ((State.with_size 0).get? i = none ∧ (State.with_size 0).set? i value = none) ∧
    (0 < s.v.length → (s.get? i).isSome ∧ (s.set? i value).isSome) := by
  constructor
  · constructor <;> simp [State.with_size, State.get?, State.set?, i32_rem_euclid]
  · intro h
    have hne : (s.v.length : Int) ≠ 0 := by
      simpa using Int.natCast_ne_zero.mpr (Nat.pos_iff_ne_zero.mp h)
    have hidx : (i % (s.v.length : Int)).toNat < s.v.length := by
      have h1 := Int.emod_nonneg i hne
      have h2 := Int.emod_lt_of_pos i (show (0 : Int) < (s.v.length : Int) by omega)
      omega
    constructor
    · simp only [State.get?, i32_rem_euclid, if_neg hne]
      rw [List.get?_eq_getElem?]
      simp [List.getElem?_eq_getElem hidx]
    · simp [State.set?, i32_rem_euclid, hne]

/-- Witness for C9 at a length-2 state, index `-7`, value `3`. -/
theorem c9_state_index_panics_witness :
    ((State.with_size 0).get? (-7) = none ∧ (State.with_size 0).set? (-7) 3 = none) ∧
    (0 < (State.with_size 2).v.length ∧ ((State.with_size 2).get? (-7)).isSome) :=
  ⟨(c9_state_index_panics (State.with_size 2) (-7) 3).1,
    by decide, ((c9_state_index_panics (State.with_size 2) (-7) 3).2 (by decide)).1⟩

/-- C4: for a theme buffer whose byte length is exactly `20 * L`, `len()` is
`L`, `get(i)` succeeds with five colors for every `i < L`, and for every
`i ≥ L` already the first 4-byte slice is out of bounds, so the access fails
loudly (`none`, the bounds-checked panic) instead of reading adjacent
memory. -/
theorem c4_themes_get_bounds (mem : List Nat) (L : Nat) (h : mem.length = 20 * L) :
    Themes.len ⟨mem⟩ = L ∧
    (∀ i, i < L → ∃ cs, Themes.get? ⟨mem⟩ i = some cs ∧ cs.length = 5) ∧
    (∀ i, L ≤ i → Themes.get? ⟨mem⟩ i = none) := by
  refine ⟨by simp [Themes.len, THEME_SIZE, h], ?_, ?_⟩
  · intro i hi
    have h1 : i * 20 + 4 ≤ mem.length := by omega
    have h2 : i * 20 + 4 + 4 ≤ mem.length := by omega
    have h3 : i * 20 + 8 + 4 ≤ mem.length := by omega
    have h4 : i * 20 + 12 + 4 ≤ mem.length := by omega
    have h5 : i * 20 + 16 + 4 ≤ mem.length := by omega
    simp only [Themes.get?, THEME_SIZE, read_u32_be?, if_pos h1, if_pos h2,
      if_pos h3, if_pos h4, if_pos h5]
    exact ⟨_, rfl, rfl⟩
  · intro i hi
    have h1 : ¬ (i * 20 + 4 ≤ mem.length) := by omega
    simp only [Themes.get?, THEME_SIZE, read_u32_be?, if_neg h1]

/-- Witness for C4 on a 20-byte all-zero buffer (`L = 1`). -/
theorem c4_themes_get_bounds_witness :
    (List.replicate 20 0).length = 20 * 1 ∧
    Themes.len ⟨List.replicate 20 0⟩ = 1 ∧
    Themes.get? ⟨List.replicate 20 0⟩ 1 = none :=
  ⟨by decide, (c4_themes_get_bounds (List.replicate 20 0) 1 (by decide)).1,
    (c4_themes_get_bounds (List.replicate 20 0) 1 (by decide)).2.2 1 (by decide)⟩

/-- C10: `Color::alpha` returns the stored 8-bit alpha multiplied by 255.0
(65025 for a fully opaque color), so it is not the inverse of the `[0,1]`
alpha fraction accepted by `from_rgba` and `with_alpha`. -/
theorem c10_alpha_times_255 (c : Color) :
    c.alpha = (c.a : ℚ) * 255 ∧
    (Color.from_rgb 0 0 0).alpha = 65025 ∧
    (Color.from_rgba 7 7 7 1).alpha ≠ 1 ∧
    ((Color.from_rgb 5 5 5).with_alpha 1).alpha ≠ 1 := by
  refine ⟨rfl, by norm_num [Color.alpha, Color.from_rgb], ?_, ?_⟩
  · norm_num [Color.alpha, Color.from_rgba, f64_as_u8]
  · norm_num [Color.alpha, Color.with_alpha, Color.from_rgba, f64_as_u8]

/-- C8 counterexample: for white and the factor 10/7 (a rational standing
for `BRIGHTER.powf(k)` just above 1), the rescaled channel value 2550/7 ≈
364.3 exceeds 255 and its low-8-bit wrap would be 108 — but the code stores
255: Rust float-to-integer `as` casts saturate, so the channel is clamped,
not wrapped. -/
theorem c8_counterexample :
    255 < (255 : ℚ) / 255 * 255 * (10 / 7) ∧
    ⌊(255 : ℚ) / 255 * 255 * (10 / 7)⌋ % 256 = 108 ∧
    (Color.from_rgb 255 255 255).brighter (10 / 7) = ⟨255, 255, 255, 255⟩ := by
  refine ⟨by norm_num, by norm_num, ?_⟩
  simp only [Color.brighter, Color.as_f64, Color.from_rgb]
  norm_num [f64_as_u8, Color.mk.injEq]

/-- C8 amended: when `brighter(k)` rescales a channel's 0-1 fraction to a
value above 255, the stored 8-bit channel is the saturating cast's clamp
value 255 (it does not wrap to the value's low 8 bits), while the alpha
channel is preserved unchanged. -/
theorem c8_brighter_saturates (c : Color) (k : ℚ)
    (h : 255 < (c.r : ℚ) / 255 * 255 * k) :
    (c.brighter k).r = 255 ∧ (c.brighter k).a = c.a := by
  constructor
  · show f64_as_u8 ((c.r : ℚ) / 255 * 255 * k) = 255
    rw [f64_as_u8, if_neg (by linarith)]
    have h255 : (255 : ℤ) ≤ ⌊(c.r : ℚ) / 255 * 255 * k⌋ := by
      refine Int.le_floor.mpr ?_
      exact_mod_cast h.le
    have hge : (255 : Nat) ≤ ⌊(c.r : ℚ) / 255 * 255 * k⌋.toNat := by omega
    exact Nat.min_eq_left hge
  · rfl

/-- Witness for C8 amended: white brightened with factor 2. -/
theorem c8_brighter_saturates_witness :
    255 < ((Color.from_rgb 255 255 255).r : ℚ) / 255 * 255 * 2 ∧
    ((Color.from_rgb 255 255 255).brighter 2).r = 255 :=
  ⟨by norm_num [Color.from_rgb],
    (c8_brighter_saturates (Color.from_rgb 255 255 255) 2
      (by norm_num [Color.from_rgb])).1⟩

/-- Every character produced by `toHexFuel` is either from the initial
accumulator or a hex digit character. -/
theorem mem_toHexFuel {fuel n : Nat} {acc : List Char} {c : Char}
    (hmem : c ∈ toHexFuel fuel n acc) :
    c ∈ acc ∨ ∃ d, d < 16 ∧ c = hexChar d := by
  induction fuel generalizing n acc with
  | zero => exact Or.inl hmem
  | succ fuel ih =>
    simp only [toHexFuel] at hmem
    by_cases h0 : n = 0
    · rw [if_pos h0] at hmem; exact Or.inl hmem
    · rw [if_neg h0] at hmem
      rcases ih hmem with hmem | hmem
      · rcases List.mem_cons.mp hmem with hmem | hmem
        · exact Or.inr ⟨n % 16, Nat.mod_lt _ (by norm_num), hmem⟩
        · exact Or.inl hmem
      · exact Or.inr hmem

/-- `toHexFuel` prepends its digits to the accumulator. -/
theorem toHexFuel_append (fuel : Nat) :
    ∀ n acc, toHexFuel fuel n acc = toHexFuel fuel n [] ++ acc := by
  induction fuel with
  | zero => intro n acc; simp [toHexFuel]
  | succ fuel ih =>
    intro n acc
    by_cases h0 : n = 0
    · simp [toHexFuel, h0]
    · simp only [toHexFuel, if_neg h0]
      rw [ih (n / 16) (hexChar (n % 16) :: acc), ih (n / 16) [hexChar (n % 16)]]
      simp

/-- Hex digit characters round-trip through `hexDigit?`. -/
theorem hexDigit_hexChar (d : Nat) (hd : d < 16) : hexDigit? (hexChar d) = some d := by
  have h : ∀ e : Fin 16, hexDigit? (hexChar e.val) = some e.val := by decide
  exact h ⟨d, hd⟩

/-- Appending one hex digit to the parsed input multiplies the parsed value
by 16 and adds the digit, provided the result still fits in a `u64`. -/
theorem parseHexU64_append (l : List Char) :
    ∀ acc v d, parseHexU64 l acc = some v → d < 16 → v * 16 + d < U64_LIMIT →
      parseHexU64 (l ++ [hexChar d]) acc = some (v * 16 + d) := by
  induction l with
  | nil =>
    intro acc v d hp hd hlt
    simp only [parseHexU64, Option.some.injEq] at hp
    subst hp
    simp only [List.nil_append, parseHexU64, hexDigit_hexChar d hd, if_pos hlt]
  | cons ch rest ih =>
    intro acc v d hp hd hlt
    simp only [parseHexU64] at hp ⊢
    cases hh : hexDigit? ch with
    | none =>
      simp only [hh] at hp
      exact Option.noConfusion hp
    | some d0 =>
      simp only [hh] at hp ⊢
      by_cases hcond : acc * 16 + d0 < U64_LIMIT
      · rw [if_pos hcond] at hp ⊢
        exact ih _ _ _ hp hd hlt
      · rw [if_neg hcond] at hp
        exact absurd hp (by simp)

/-- Parsing the hex digits of `n` (with sufficient fuel) yields `n`, for any
`n` below the `u64` overflow limit. -/
theorem parseHexU64_toHexFuel (fuel : Nat) :
    ∀ n, n < fuel → n < U64_LIMIT → parseHexU64 (toHexFuel fuel n []) 0 = some n := by
  induction fuel with
  | zero => intro n hn _; omega
  | succ fuel ih =>
    intro n hn hlim
    by_cases h0 : n = 0
    · subst h0; simp [toHexFuel, parseHexU64]
    · simp only [toHexFuel, if_neg h0]
      rw [toHexFuel_append]
      have hdiv_fuel : n / 16 < fuel := by
        have h1 : n / 16 < n := Nat.div_lt_self (Nat.pos_of_ne_zero h0) (by norm_num)
        omega
      have hdiv_lim : n / 16 < U64_LIMIT := by
        have := Nat.div_le_self n 16
        omega
      have hmod : n % 16 < 16 := Nat.mod_lt _ (by norm_num)
      have heq : n / 16 * 16 + n % 16 = n := by omega
      rw [parseHexU64_append _ _ _ _ (ih (n / 16) hdiv_fuel hdiv_lim) hmod (by omega)]
      exact congrArg some heq

/-- Leading zeros do not change the parsed value. -/
theorem parseHexU64_zeros (k : Nat) (l : List Char) :
    parseHexU64 (List.replicate k '0' ++ l) 0 = parseHexU64 l 0 := by
  induction k with
  | zero => rfl
  | succ k ih =>
    simp only [List.replicate_succ, List.cons_append, parseHexU64,
      show hexDigit? '0' = some 0 from by decide]
    rw [if_pos (by norm_num [U64_LIMIT])]
    simpa using ih

/-- Parsing `{:x}` output of `n < 2^64` yields `n`. -/
theorem parseHexU64_toHex (n : Nat) (h : n < U64_LIMIT) :
    parseHexU64 (toHex n) 0 = some n := by
  by_cases h0 : n = 0
  · subst h0; decide
  · simp only [toHex, if_neg h0]
    exact parseHexU64_toHexFuel (n + 1) n (by omega) h

/-- `{:x}` output is never empty. -/
theorem toHex_ne_nil (n : Nat) : toHex n ≠ [] := by
  by_cases h0 : n = 0
  · subst h0; simp [toHex]
  · simp only [toHex, if_neg h0, toHexFuel]
    rw [toHexFuel_append]
    simp

/-- No character of the padded display string is a sign character. -/
theorem display_chars_ne_plus (v k : Nat) (c : Char)
    (hmem : c ∈ List.replicate k '0' ++ toHex v) : c ≠ '+' := by
  rcases List.mem_append.mp hmem with hmem | hmem
  · rw [List.eq_of_mem_replicate hmem]; decide
  · by_cases h0 : v = 0
    · subst h0
      rw [show toHex 0 = ['0'] from rfl, List.mem_singleton] at hmem
      rw [hmem]; decide
    · simp only [toHex, if_neg h0] at hmem
      rcases mem_toHexFuel hmem with hmem | hmem
      · exact absurd hmem (List.not_mem_nil c)
      · obtain ⟨d, hd, rfl⟩ := hmem
        have h16 : ∀ e : Fin 16, hexChar e.val ≠ '+' := by decide
        exact h16 ⟨d, hd⟩

/-- Re-parsing the zero-padded hex display of a `u64` value recovers it. -/
theorem from_str_radix16_display (v : Nat) (h : v < U64_LIMIT) :
    from_str_radix16 (Seed.display (Seed.new v)) = some v := by
  have hne : List.replicate (8 - (toHex v).length) '0' ++ toHex v ≠ [] := by
    intro hnil
    exact toHex_ne_nil v (List.append_eq_nil.mp hnil).2
  obtain ⟨c, t, hct⟩ := List.exists_cons_of_ne_nil hne
  have hcp : c ≠ '+' :=
    display_chars_ne_plus v (8 - (toHex v).length) c (hct ▸ List.mem_cons_self c t)
  show from_str_radix16 ⟨List.replicate (8 - (toHex v).length) '0' ++ toHex v⟩ = some v
  rw [hct]
  simp only [from_str_radix16, if_neg hcp]
  rw [← hct, parseHexU64_zeros, parseHexU64_toHex v h]

/-- C5: formatting a `Seed` with `{:08x}` (lowercase hex, zero-padded to a
minimum width of 8 digits, magnitude never truncated) and re-parsing the
string with `u64::from_str_radix(_, 16)` yields the same underlying value;
the text `"ff"` parses to 255, 255 displays as `"000000ff"`, and a value
above 2^32 - 1 keeps all its digits. -/
theorem c5_seed_round_trip (v : Nat) (hv : v < U64_LIMIT) :
    Seed.from_str (Seed.display (Seed.new v)) = some (Seed.new v) ∧
    Seed.from_str "ff" = some (Seed.new 255) ∧
    Seed.display (Seed.new 255) = "000000ff" ∧
    Seed.display (Seed.new (2 ^ 64 - 1)) = "ffffffffffffffff" := by
  refine ⟨?_, by decide, by decide, by decide⟩
  rw [Seed.from_str, from_str_radix16_display v hv]
  rfl

/-- Witness for C5 at `v = 255`. -/
theorem c5_seed_round_trip_witness :
    (255 : Nat) < U64_LIMIT ∧
    Seed.from_str (Seed.display (Seed.new 255)) = some (Seed.new 255) :=
  ⟨by decide, (c5_seed_round_trip 255 (by decide)).1⟩

example : (State.with_size 3).get? 5 = some 0 := by decide
example : (State.with_size 0).get? 5 = none := by decide
example : ((State.with_size 7).set 3 3).v = [0, 0, 0, 3, 0, 0, 0] := by decide
example : Rule.apply (Rule.new (2 ^ 64 - 1)) 63 = 1 := by decide
example : Rule.apply (Rule.new (2 ^ 64 - 1)) 62 = 3 := by decide
example :
    (((State.with_size 7).set 3 3).apply (Rule.new (2 ^ 64 - 1))).v
      = [3, 3, 3, 3, 3, 3, 3] := by decide
